import Mathlib

/-!
A shallow embedding of the S1NU5-Graphics renderer core:
`src/Main/src/Renderer.cpp` together with the vector algebra of
`src/YetAnotherMathLib/include/Vector3.h`.

The C++ scalar type `flt` is modelled as exact real arithmetic (`ℝ`);
pixel coordinates, tile indices and packed colors are `ℕ`.  External
collaborators that are not part of `src/` (the camera ray source, the
scene objects, the packed-color conversion and the epsilon constants of
`Defines.h`) are modelled from the spec, each marked as such in its doc
comment.
-/

noncomputable section

namespace YAM

/-- Modelled from the spec: `Defines.h` is not in `src/`; the spec describes
its epsilon only as "a small-epsilon constant".  `SmallNumber` is the guard
threshold used by `Vector3::Normal`. -/
def SmallNumber : ℝ := 1 / 1000000

/-- Modelled from the spec: the convergence threshold `SmallFloat` from
`Defines.h` (not in `src/`), "a small-epsilon constant" per the spec. -/
def SmallFloat : ℝ := 1 / 1000000

/-- `YAM::Vector3` (Vector3.h): three `flt` components, modelled over `ℝ`. -/
structure Vector3 where
  x : ℝ
  y : ℝ
  z : ℝ

instance : Zero Vector3 := ⟨⟨0, 0, 0⟩⟩

instance : Add Vector3 := ⟨fun a b => ⟨a.x + b.x, a.y + b.y, a.z + b.z⟩⟩

instance : Sub Vector3 := ⟨fun a b => ⟨a.x - b.x, a.y - b.y, a.z - b.z⟩⟩

instance : Neg Vector3 := ⟨fun a => ⟨-a.x, -a.y, -a.z⟩⟩

instance : HMul Vector3 ℝ Vector3 := ⟨fun a s => ⟨a.x * s, a.y * s, a.z * s⟩⟩

instance : HDiv Vector3 ℝ Vector3 := ⟨fun a s => ⟨a.x / s, a.y / s, a.z / s⟩⟩

/-- `Vector3::Length` (Vector3.h line 22): `std::sqrt(x*x + y*y + z*z)`. -/
def Vector3.Length (v : Vector3) : ℝ :=
  Real.sqrt (v.x * v.x + v.y * v.y + v.z * v.z)

/-- `Vector3::Dot` (Vector3.h line 37). -/
def Vector3.Dot (a b : Vector3) : ℝ := a.x * b.x + a.y * b.y + a.z * b.z

/-- `Vector3::Normal` (Vector3.h lines 25-31): returns the zero vector when
the length is below `SmallNumber`, otherwise the vector divided by its
length. -/
def Vector3.Normal (v : Vector3) : Vector3 :=
  if v.Length < SmallNumber then 0 else v / v.Length

end YAM

namespace YAR

open YAM

/-- Modelled from the spec: `Ray` (LinearMath.h, not in `src/`) is "origin +
direction". -/
structure Ray where
  origin : Vector3
  direction : Vector3

/-- Modelled from the spec: the Ray Source contract
`getRay(pixelX, pixelY) -> Ray`, "pure function of pixel coordinates and
fixed camera state" (`Camera` is not in `src/`). -/
structure Camera where
  GetRay : ℕ → ℕ → Ray

/-- `YAR::RenderHitInfo` as used by `Renderer.cpp`: distance, surface
normal, and the hit material.  `Material`/`Color` are external, so the
material reference is modelled by the vector form of its color,
`material->color.ToVector()` (Renderer.cpp line 117). -/
structure RenderHitInfo where
  distance : ℝ
  normal : Vector3
  matColor : Vector3

/-- Modelled from the spec: an `Intersectable`/`Renderable` is the
capability `trace(ray) -> optional hit info`; `Renderable::Trace`
(Renderer.cpp line 106) returns a `bool` plus an out-parameter, modelled
as `Option`. -/
def Renderable : Type := Ray → Option RenderHitInfo

/-- `std::numeric_limits<float>::max()` (Renderer.cpp line 101), the exact
value `(2 - 2⁻²³)·2¹²⁷ = 2¹²⁸ - 2¹⁰⁴`. -/
def floatMax : ℝ := 2 ^ 128 - 2 ^ 104

/-- One iteration of the intersection loop (Renderer.cpp lines 105-112):
if the renderable reports a hit closer than the current closest hit, the
accumulator `(closestHit, wasIntersection)` is replaced. -/
def traceStep (ray : Ray) (acc : RenderHitInfo × Bool) (r : Renderable) :
    RenderHitInfo × Bool :=
  match r ray with
  | some hitInfo =>
      if hitInfo.distance < acc.1.distance then (hitInfo, true) else acc
  | none => acc

/-- The intersection loop of `Renderer::SamplePixel` (Renderer.cpp lines
105-112), iterating the renderables in insertion order. -/
def traceLoop (ray : Ray) (rs : List Renderable) (acc : RenderHitInfo × Bool) :
    RenderHitInfo × Bool :=
  rs.foldl (traceStep ray) acc

/-- The hits actually reported by the scene for a given ray, in insertion
order of the renderables. -/
def reportedHits (ray : Ray) (rs : List Renderable) : List RenderHitInfo :=
  rs.filterMap (fun r => r ray)

/-- The lighting computation of `Renderer::SamplePixel` (Renderer.cpp lines
114-120): fixed light direction `(-1,-1,1)`,
`lightDotNorm = max(0, dot(normal, -lightDir.Normal()))`,
`lightValue = min(1, lightDotNorm + 0.1)`, result
`objColor * lightValue`. -/
def shadeHit (hit : RenderHitInfo) : Vector3 :=
  let lightDir : Vector3 := ⟨-1, -1, 1⟩
  let objColor := hit.matColor
  let lightDotNorm := max 0 (Vector3.Dot hit.normal (-lightDir.Normal))
  let lightValue := min 1 (lightDotNorm + 0.1)
  objColor * lightValue

/-- The per-renderer configuration of `YAR::Renderer` (Renderer.cpp lines
14-20): the renderables list, `samplesPerPixel`,
`bVariableSamplesPerPixel`, `tilesPerRow` and the framebuffer size. -/
structure RendererState where
  renderables : List Renderable
  samplesPerPixel : ℕ
  bVariableSamplesPerPixel : Bool
  tilesPerRow : ℕ
  sizeX : ℕ
  sizeY : ℕ

/-- `Renderer::SamplePixel` (Renderer.cpp lines 97-124): runs the
intersection loop starting from a sentinel closest hit at distance
`floatMax` and no intersection; shades the closest hit, or returns the
zero vector when nothing was hit. -/
def SamplePixel (st : RendererState) (cam : Camera) (y x : ℕ) : Vector3 :=
  let ray := cam.GetRay x y
  let res := traceLoop ray st.renderables (⟨floatMax, 0, 0⟩, false)
  if res.2 then shadeHit res.1 else 0

/-- The per-pixel sample accumulator after the clearing loop
(Renderer.cpp lines 62-63 and 67-69): `samplesPerPixel` zero vectors. -/
def clearedSamples (spp : ℕ) : List Vector3 := List.replicate spp 0

/-- The sample accumulator after the two unconditional initial samples
(Renderer.cpp lines 72-75).  Both calls are `SamplePixel(camera, i, j)`
on the same pixel, hence the same value `S`. -/
def initialSamples (S : Vector3) (spp : ℕ) : List Vector3 :=
  ((clearedSamples spp).set 0 S).set 1 S

/-- The branch condition of Renderer.cpp line 77, exactly as written:
`!bVariableSamplesPerPixel || (samples[0] - samples[i]).Length() > SmallFloat`
where `i` is the pixel row of the enclosing loop (not a sample index). -/
def heuristicCond (bVar : Bool) (arr : List Vector3) (i : ℕ) : Prop :=
  bVar = false ∨ SmallFloat < ((arr.getD 0 0) - (arr.getD i 0)).Length

/-- The loop of Renderer.cpp lines 78-81 as written:
`for (sampleID = 2; sampleID < numSamples; ++sampleID)` with
`numSamples++` in the body, writing `samples[sampleID]`.  The loop is
modelled with explicit fuel; starting from `sampleID = 2, numSamples = 2`
its guard fails immediately, so the fuel value is irrelevant. -/
def extraLoop (S : Vector3) : ℕ → ℕ → ℕ → List Vector3 → List Vector3 × ℕ
  | 0, _, numSamples, arr => (arr, numSamples)
  | fuel + 1, sampleID, numSamples, arr =>
      if sampleID < numSamples then
        extraLoop S fuel (sampleID + 1) (numSamples + 1) (arr.set sampleID S)
      else (arr, numSamples)

open Classical

/-- The sample accumulator and `numSamples` after the whole sampling phase
of one pixel (Renderer.cpp lines 67-82): clear, take two samples, then
run the extra-sample loop when the line-77 condition holds. -/
def pixelSampleState (S : Vector3) (spp : ℕ) (bVar : Bool) (i : ℕ) :
    List Vector3 × ℕ :=
  let arr := initialSamples S spp
  if heuristicCond bVar arr i then extraLoop S spp 2 2 arr else (arr, 2)

/-- The summation loop of Renderer.cpp lines 84-87: `finalColor` starts at
zero and accumulates `samples[sampleID]` for `sampleID < numSamples`. -/
def sampleSum (arr : List Vector3) (n : ℕ) : Vector3 :=
  (List.range n).foldl (fun acc k => acc + arr.getD k 0) 0

/-- The vector committed for one pixel (Renderer.cpp line 91):
`finalColor / numSamples`. -/
def committedVector (S : Vector3) (spp : ℕ) (bVar : Bool) (i : ℕ) : Vector3 :=
  sampleSum (pixelSampleState S spp bVar i).1 (pixelSampleState S spp bVar i).2
    / ((pixelSampleState S spp bVar i).2 : ℝ)

/-- Modelled from the spec: one clamped byte of the packed color
(`Color` is not in `src/`; the spec says colors are "clamped to configured
maxima" and packed as an integer). -/
def byteOfReal (r : ℝ) : ℕ := min 255 (Nat.floor (r * 255))

/-- Modelled from the spec: `Color::FromVector(v).hex` (Renderer.cpp line
91; `Color` is not in `src/`).  The spec gives the packed layout
`0xAARRGGBB` with opaque alpha, matching the opaque-black background
`0xff000000`. -/
def colorFromVectorHex (v : Vector3) : ℕ :=
  0xff000000 + 0x10000 * byteOfReal v.x + 0x100 * byteOfReal v.y + byteOfReal v.z

/-- The packed color committed to the framebuffer for pixel row `i`,
column `j` (Renderer.cpp lines 71-91), with the pixel row `i` fed to the
line-77 condition exactly as in the source. -/
def pixelCommit (st : RendererState) (cam : Camera) (i j : ℕ) : ℕ :=
  colorFromVectorHex
    (committedVector (SamplePixel st cam i j) st.samplesPerPixel
      st.bVariableSamplesPerPixel i)

/-- `YAR::RenderBounds` (Renderer.cpp lines 44-48 and 127-131): a half-open
pixel rectangle `[minX, maxX) × [minY, maxY)` in unsigned integers. -/
structure RenderBounds where
  minX : ℕ
  minY : ℕ
  maxX : ℕ
  maxY : ℕ

/-- The framebuffer, keyed by `(x, y)`; `YAR::Buffer` is external to the
core, exposing per-pixel set and bulk fill. -/
abbrev Buffer : Type := ℕ × ℕ → ℕ

/-- `Buffer::SetPix(x, y, color)` modelled as a pointwise update. -/
def setPix (b : Buffer) (x y c : ℕ) : Buffer :=
  fun q => if q = (x, y) then c else b q

/-- The row-major pixel list of one tile (Renderer.cpp lines 65-66):
pairs `(i, j)` with row `i ∈ [minY, maxY)` outer and column
`j ∈ [minX, maxX)` inner. -/
def tilePixels (b : RenderBounds) : List (ℕ × ℕ) :=
  (List.range (b.maxY - b.minY)).flatMap fun di =>
    (List.range (b.maxX - b.minX)).map fun dj => (b.minY + di, b.minX + dj)

/-- `Renderer::RenderWorker` (Renderer.cpp lines 61-95): for every pixel of
the tile, commit the sampled color to the framebuffer at `(j, i)`. -/
def RenderWorker (st : RendererState) (cam : Camera) (b : RenderBounds)
    (buf : Buffer) : Buffer :=
  (tilePixels b).foldl
    (fun acc p => setPix acc p.2 p.1 (pixelCommit st cam p.1 p.2)) buf

/-- The tile bounds computed by `Renderer::Render` (Renderer.cpp lines
40-48): `tileY = tileID / tilesPerRow`,
`tileX = tileID - tileY * tilesPerRow`, and the bounds by integer
division. -/
def tileBounds (sizeX sizeY tilesPerRow tileID : ℕ) : RenderBounds :=
  let tileY := tileID / tilesPerRow
  let tileX := tileID - tileY * tilesPerRow
  { minX := tileX * sizeX / tilesPerRow
    minY := tileY * sizeY / tilesPerRow
    maxX := tileX * sizeX / tilesPerRow + sizeX / tilesPerRow
    maxY := tileY * sizeY / tilesPerRow + sizeY / tilesPerRow }

/-- Membership of a pixel `(x, y)` in a half-open tile rectangle. -/
def inTileBounds (b : RenderBounds) (x y : ℕ) : Prop :=
  b.minX ≤ x ∧ x < b.maxX ∧ b.minY ≤ y ∧ y < b.maxY

/-- One render pass over an explicit tile schedule: the framebuffer is
bulk-filled with `0xff000000` (Renderer.cpp line 29) and the tiles of the
schedule are processed in order by `RenderWorker`.  The source dispatches
the tiles of `[0, tilesPerRow²)` across parallel workers; a schedule here
is one serialization of that dispatch. -/
def renderPass (st : RendererState) (cam : Camera) (order : List ℕ) : Buffer :=
  order.foldl
    (fun buf tid =>
      RenderWorker st cam (tileBounds st.sizeX st.sizeY st.tilesPerRow tid) buf)
    (fun _ => 0xff000000)

/-- `Renderer::Render` (Renderer.cpp lines 28-55) over the canonical tile
schedule `0, 1, …, tilesPerRow² - 1`. -/
def Render (st : RendererState) (cam : Camera) : Buffer :=
  renderPass st cam (List.range (st.tilesPerRow * st.tilesPerRow))

/-- The subscripts applied to the per-pixel sample accumulator `samples`
during the processing of one pixel in row `i`, transcribed from
Renderer.cpp: writes at indices `0` and `1` (line 73), reads at `0` and at
the pixel row `i` (line 77), and reads at `0 … numSamples - 1`
(line 86). -/
def sampleAccessIndices (numSamples i : ℕ) : List ℕ :=
  [0, 1] ++ [0, i] ++ List.range numSamples

end YAR

namespace YAM

theorem Vector3.zero_def : (0 : Vector3) = ⟨0, 0, 0⟩ := rfl

theorem Vector3.add_def (a b : Vector3) :
    a + b = ⟨a.x + b.x, a.y + b.y, a.z + b.z⟩ := rfl

theorem Vector3.sub_def (a b : Vector3) :
    a - b = ⟨a.x - b.x, a.y - b.y, a.z - b.z⟩ := rfl

theorem Vector3.neg_def (a : Vector3) : -a = ⟨-a.x, -a.y, -a.z⟩ := rfl

theorem Vector3.mul_def (a : Vector3) (s : ℝ) :
    a * s = ⟨a.x * s, a.y * s, a.z * s⟩ := rfl

theorem Vector3.div_def (a : Vector3) (s : ℝ) :
    a / s = ⟨a.x / s, a.y / s, a.z / s⟩ := rfl

theorem Vector3.zero_add_vec (v : Vector3) : (0 : Vector3) + v = v := by
  rw [Vector3.zero_def, Vector3.add_def]
  simp

theorem Vector3.sub_self_vec (v : Vector3) : v - v = (0 : Vector3) := by
  rw [Vector3.sub_def, Vector3.zero_def]
  simp

theorem Vector3.length_zero : (0 : Vector3).Length = 0 := by
  rw [Vector3.zero_def]
  simp [Vector3.Length]

end YAM

namespace YAR

open YAM

open Classical

theorem extraLoop_no_entry (S : Vector3) (fuel : ℕ) (arr : List Vector3) :
    extraLoop S fuel 2 2 arr = (arr, 2) := by
  cases fuel <;> simp [extraLoop]

theorem pixelSampleState_eq (S : Vector3) (spp : ℕ) (bVar : Bool) (i : ℕ) :
    pixelSampleState S spp bVar i = (initialSamples S spp, 2) := by
  rw [show pixelSampleState S spp bVar i =
      if heuristicCond bVar (initialSamples S spp) i then
        extraLoop S spp 2 2 (initialSamples S spp)
      else (initialSamples S spp, 2) from rfl]
  split
  · exact extraLoop_no_entry S spp _
  · rfl

theorem pixelSampleState_snd (S : Vector3) (spp : ℕ) (bVar : Bool) (i : ℕ) :
    (pixelSampleState S spp bVar i).2 = 2 := by
  rw [pixelSampleState_eq]

theorem pixelSampleState_fst (S : Vector3) (spp : ℕ) (bVar : Bool) (i : ℕ) :
    (pixelSampleState S spp bVar i).1 = initialSamples S spp := by
  rw [pixelSampleState_eq]

theorem initialSamples_shape (S : Vector3) (spp : ℕ) (h : 2 ≤ spp) :
    initialSamples S spp = S :: S :: List.replicate (spp - 2) 0 := by
  obtain ⟨k, rfl⟩ : ∃ k, spp = k + 2 := ⟨spp - 2, by omega⟩
  simp [initialSamples, clearedSamples, List.replicate_succ]

theorem sampleSum_two (arr : List Vector3) :
    sampleSum arr 2 = arr.getD 0 0 + arr.getD 1 0 := by
  simp [sampleSum, List.range_succ, Vector3.zero_add_vec]

/-- Claim C1: evaluation of the code at the failing configuration.  With
adaptive sampling disabled the per-pixel loop of `RenderWorker` finishes
with `numSamples = 2` for every `samplesPerPixel` (the extra-sample loop
of Renderer.cpp line 78 tests `sampleID < numSamples` with both equal to
2, so it never runs), while the claim requires `samplesPerPixel`
samples. -/
theorem fixedSampling_always_two_samples (S : Vector3) (spp i : ℕ) :
    (pixelSampleState S spp false i).2 = 2 :=
  pixelSampleState_snd S spp false i

/-- Claim C2: evaluation of the code at the failing input.  With the same
two initial samples `⟨1,0,0⟩` (and `samplesPerPixel = 4`), the line-77
heuristic does not fire for a pixel in row 1 but fires for a pixel in
row 2, because it reads the accumulator at the pixel-row index instead of
sample index 1: the decision depends on the pixel's coordinates. -/
theorem heuristic_depends_on_pixel_row :
    ¬ heuristicCond true (initialSamples ⟨1, 0, 0⟩ 4) 1 ∧
      heuristicCond true (initialSamples ⟨1, 0, 0⟩ 4) 2 := by
  have hshape : initialSamples (⟨1, 0, 0⟩ : Vector3) 4 =
      [⟨1, 0, 0⟩, ⟨1, 0, 0⟩, 0, 0] := by
    rw [initialSamples_shape _ 4 (by norm_num)]
    simp [List.replicate_succ]
  have e0 : ([⟨1, 0, 0⟩, ⟨1, 0, 0⟩, 0, 0] : List Vector3).getD 0 0 =
      (⟨1, 0, 0⟩ : Vector3) := rfl
  have e1 : ([⟨1, 0, 0⟩, ⟨1, 0, 0⟩, 0, 0] : List Vector3).getD 1 0 =
      (⟨1, 0, 0⟩ : Vector3) := rfl
  have e2 : ([⟨1, 0, 0⟩, ⟨1, 0, 0⟩, 0, 0] : List Vector3).getD 2 0 =
      (0 : Vector3) := rfl
  constructor
  · intro h
    rcases h with h | h
    · simp at h
    · rw [hshape, e0, e1, Vector3.sub_self_vec, Vector3.length_zero] at h
      have : (0 : ℝ) < SmallFloat := by norm_num [SmallFloat]
      linarith
  · right
    rw [hshape, e0, e2]
    have h1 : ((⟨1, 0, 0⟩ : Vector3) - 0).Length = 1 := by
      rw [Vector3.zero_def, Vector3.sub_def]
      simp [Vector3.Length]
    rw [h1]
    norm_num [SmallFloat]

/-- Claim C5: with adaptive sampling enabled and the two initial samples
within the convergence threshold, the pixel finishes with exactly 2
samples and the committed vector is the arithmetic mean of those two
samples. -/
theorem adaptive_converged_two_samples (S : Vector3) (spp i : ℕ)
    (hspp : 2 ≤ spp) (hconv : (S - S).Length ≤ SmallFloat) :
    (pixelSampleState S spp true i).2 = 2 ∧
      committedVector S spp true i = (S + S) / (2 : ℝ) := by
  refine ⟨pixelSampleState_snd S spp true i, ?_⟩
  unfold committedVector
  rw [pixelSampleState_snd, pixelSampleState_fst, sampleSum_two,
    initialSamples_shape S spp hspp]
  norm_num

/-- Witness for C5 at `S = 0`, `samplesPerPixel = 8`, row 0. -/
theorem adaptive_converged_two_samples_witness :
    (2 ≤ 8 ∧ (((0 : Vector3)) - 0).Length ≤ SmallFloat) ∧
      ((pixelSampleState 0 8 true 0).2 = 2 ∧
        committedVector 0 8 true 0 = ((0 : Vector3) + 0) / (2 : ℝ)) := by
  have hconv : (((0 : Vector3)) - 0).Length ≤ SmallFloat := by
    rw [Vector3.sub_self_vec, Vector3.length_zero]
    norm_num [SmallFloat]
  exact ⟨⟨by norm_num, hconv⟩,
    adaptive_converged_two_samples 0 8 0 (by norm_num) hconv⟩

theorem traceStep_none (ray : Ray) (acc : RenderHitInfo × Bool) (r : Renderable)
    (hr : r ray = none) : traceStep ray acc r = acc := by
  simp [traceStep, hr]

theorem traceStep_some_lt (ray : Ray) (acc : RenderHitInfo × Bool)
    (r : Renderable) (h : RenderHitInfo) (hr : r ray = some h)
    (hd : h.distance < acc.1.distance) : traceStep ray acc r = (h, true) := by
  simp [traceStep, hr, hd]

theorem traceStep_some_ge (ray : Ray) (acc : RenderHitInfo × Bool)
    (r : Renderable) (h : RenderHitInfo) (hr : r ray = some h)
    (hd : ¬ h.distance < acc.1.distance) : traceStep ray acc r = acc := by
  simp [traceStep, hr, hd]

theorem traceStep_dist_le (ray : Ray) (acc : RenderHitInfo × Bool)
    (r : Renderable) : (traceStep ray acc r).1.distance ≤ acc.1.distance := by
  cases hr : r ray with
  | none => rw [traceStep_none ray acc r hr]
  | some h =>
      by_cases hd : h.distance < acc.1.distance
      · rw [traceStep_some_lt ray acc r h hr hd]
        exact le_of_lt hd
      · rw [traceStep_some_ge ray acc r h hr hd]

theorem traceStep_flag_mono (ray : Ray) (acc : RenderHitInfo × Bool)
    (r : Renderable) (hf : acc.2 = true) : (traceStep ray acc r).2 = true := by
  cases hr : r ray with
  | none => rw [traceStep_none ray acc r hr]; exact hf
  | some h =>
      by_cases hd : h.distance < acc.1.distance
      · rw [traceStep_some_lt ray acc r h hr hd]
      · rw [traceStep_some_ge ray acc r h hr hd]; exact hf

theorem traceLoop_cons (ray : Ray) (r : Renderable) (rest : List Renderable)
    (acc : RenderHitInfo × Bool) :
    traceLoop ray (r :: rest) acc = traceLoop ray rest (traceStep ray acc r) :=
  rfl

theorem reportedHits_nil (ray : Ray) : reportedHits ray [] = [] := rfl

theorem reportedHits_cons_none (ray : Ray) (r : Renderable)
    (rs : List Renderable) (hr : r ray = none) :
    reportedHits ray (r :: rs) = reportedHits ray rs := by
  simp [reportedHits, List.filterMap_cons, hr]

theorem reportedHits_cons_some (ray : Ray) (r : Renderable)
    (rs : List Renderable) (h : RenderHitInfo) (hr : r ray = some h) :
    reportedHits ray (r :: rs) = h :: reportedHits ray rs := by
  simp [reportedHits, List.filterMap_cons, hr]

theorem traceLoop_all_none (ray : Ray) (rs : List Renderable)
    (acc : RenderHitInfo × Bool) (h : ∀ r ∈ rs, r ray = none) :
    traceLoop ray rs acc = acc := by
  induction rs generalizing acc with
  | nil => rfl
  | cons r rest ih =>
      rw [traceLoop_cons, traceStep_none ray acc r (h r (List.mem_cons_self r rest))]
      exact ih acc fun s hs => h s (List.mem_cons_of_mem r hs)

theorem traceLoop_dist_le (ray : Ray) (rs : List Renderable)
    (acc : RenderHitInfo × Bool) :
    (traceLoop ray rs acc).1.distance ≤ acc.1.distance := by
  induction rs generalizing acc with
  | nil => exact le_refl _
  | cons r rest ih =>
      rw [traceLoop_cons]
      exact le_trans (ih (traceStep ray acc r)) (traceStep_dist_le ray acc r)

theorem traceLoop_flag_mono (ray : Ray) (rs : List Renderable)
    (acc : RenderHitInfo × Bool) (hf : acc.2 = true) :
    (traceLoop ray rs acc).2 = true := by
  induction rs generalizing acc with
  | nil => exact hf
  | cons r rest ih =>
      rw [traceLoop_cons]
      exact ih (traceStep ray acc r) (traceStep_flag_mono ray acc r hf)

theorem traceLoop_mem (ray : Ray) (rs : List Renderable)
    (acc : RenderHitInfo × Bool) :
    traceLoop ray rs acc = acc ∨
      ((traceLoop ray rs acc).2 = true ∧
        (traceLoop ray rs acc).1 ∈ reportedHits ray rs) := by
  induction rs generalizing acc with
  | nil => exact Or.inl rfl
  | cons r rest ih =>
      rw [traceLoop_cons]
      cases hr : r ray with
      | none =>
          rw [traceStep_none ray acc r hr, reportedHits_cons_none ray r rest hr]
          exact ih acc
      | some h =>
          rw [reportedHits_cons_some ray r rest h hr]
          by_cases hd : h.distance < acc.1.distance
          · rw [traceStep_some_lt ray acc r h hr hd]
            rcases ih (h, true) with heq | ⟨hf, hm⟩
            · rw [heq]
              exact Or.inr ⟨rfl, List.mem_cons_self h _⟩
            · exact Or.inr ⟨hf, List.mem_cons_of_mem h hm⟩
          · rw [traceStep_some_ge ray acc r h hr hd]
            rcases ih acc with heq | ⟨hf, hm⟩
            · exact Or.inl heq
            · exact Or.inr ⟨hf, List.mem_cons_of_mem h hm⟩

theorem traceLoop_min (ray : Ray) (rs : List Renderable)
    (acc : RenderHitInfo × Bool) :
    ∀ h ∈ reportedHits ray rs,
      (traceLoop ray rs acc).1.distance ≤ h.distance ∨
        acc.1.distance ≤ h.distance := by
  induction rs generalizing acc with
  | nil => intro h hm; rw [reportedHits_nil] at hm; exact absurd hm (List.not_mem_nil h)
  | cons r rest ih =>
      intro h hm
      rw [traceLoop_cons]
      cases hr : r ray with
      | none =>
          rw [reportedHits_cons_none ray r rest hr] at hm
          rw [traceStep_none ray acc r hr]
          exact ih acc h hm
      | some h0 =>
          rw [reportedHits_cons_some ray r rest h0 hr] at hm
          rcases List.mem_cons.mp hm with rfl | hm2
          · by_cases hd : h.distance < acc.1.distance
            · left
              rw [traceStep_some_lt ray acc r h hr hd]
              exact traceLoop_dist_le ray rest (h, true)
            · exact Or.inr (le_of_not_lt hd)
          · by_cases hd : h0.distance < acc.1.distance
            · rw [traceStep_some_lt ray acc r h0 hr hd]
              rcases ih (h0, true) h hm2 with hle | hge
              · exact Or.inl hle
              · exact Or.inl (le_trans (traceLoop_dist_le ray rest (h0, true)) hge)
            · rw [traceStep_some_ge ray acc r h0 hr hd]
              exact ih acc h hm2

theorem traceLoop_flag (ray : Ray) (rs : List Renderable)
    (acc : RenderHitInfo × Bool)
    (hex : ∃ h ∈ reportedHits ray rs, h.distance < acc.1.distance) :
    (traceLoop ray rs acc).2 = true := by
  induction rs generalizing acc with
  | nil =>
      obtain ⟨h, hm, _⟩ := hex
      rw [reportedHits_nil] at hm
      exact absurd hm (List.not_mem_nil h)
  | cons r rest ih =>
      obtain ⟨h, hm, hd⟩ := hex
      rw [traceLoop_cons]
      cases hr : r ray with
      | none =>
          rw [reportedHits_cons_none ray r rest hr] at hm
          rw [traceStep_none ray acc r hr]
          exact ih acc ⟨h, hm, hd⟩
      | some h0 =>
          by_cases hd0 : h0.distance < acc.1.distance
          · rw [traceStep_some_lt ray acc r h0 hr hd0]
            exact traceLoop_flag_mono ray rest (h0, true) rfl
          · rw [traceStep_some_ge ray acc r h0 hr hd0]
            rw [reportedHits_cons_some ray r rest h0 hr] at hm
            rcases List.mem_cons.mp hm with rfl | hm2
            · exact absurd hd hd0
            · exact ih acc ⟨h, hm2, hd⟩

theorem samplePixel_def (st : RendererState) (cam : Camera) (y x : ℕ) :
    SamplePixel st cam y x =
      if (traceLoop (cam.GetRay x y) st.renderables (⟨floatMax, 0, 0⟩, false)).2 = true
      then shadeHit (traceLoop (cam.GetRay x y) st.renderables (⟨floatMax, 0, 0⟩, false)).1
      else 0 := rfl

/-- Claim C6: for a ray for which no scene object reports a hit (in
particular whenever the renderables list is empty), `SamplePixel` returns
exactly the zero vector. -/
theorem samplePixel_no_hit (st : RendererState) (cam : Camera) (y x : ℕ)
    (h : ∀ r ∈ st.renderables, r (cam.GetRay x y) = none) :
    SamplePixel st cam y x = 0 := by
  rw [samplePixel_def, traceLoop_all_none _ _ _ h]
  simp

/-- Witness for C6: an empty renderables list and a trivial camera. -/
theorem samplePixel_no_hit_witness :
    (∀ r ∈ (⟨[], 8, true, 8, 4, 4⟩ : RendererState).renderables,
        r ((⟨fun _ _ => ⟨0, 0⟩⟩ : Camera).GetRay 0 0) = none) ∧
      SamplePixel ⟨[], 8, true, 8, 4, 4⟩ ⟨fun _ _ => ⟨0, 0⟩⟩ 0 0 = 0 := by
  refine ⟨?_, samplePixel_no_hit _ _ 0 0 ?_⟩ <;>
    intro r hr <;> exact absurd hr (List.not_mem_nil r)

/-- Claim C4: when at least one scene object reports a hit (all reported
distances below the `floatMax` sentinel), `SamplePixel` returns the shading
of a reported hit of minimum distance among all hits reported by the
insertion-order iteration, where the shading is
`materialColor * min(1, max(0, dot(normal, -normalize((-1,-1,1)))) + 0.1)`
as embodied by `shadeHit`. -/
theorem samplePixel_closest_hit (st : RendererState) (cam : Camera) (y x : ℕ)
    (hne : reportedHits (cam.GetRay x y) st.renderables ≠ [])
    (hmax : ∀ h ∈ reportedHits (cam.GetRay x y) st.renderables,
      h.distance < floatMax) :
    ∃ h ∈ reportedHits (cam.GetRay x y) st.renderables,
      (∀ h2 ∈ reportedHits (cam.GetRay x y) st.renderables,
        h.distance ≤ h2.distance) ∧
      SamplePixel st cam y x = shadeHit h := by
  have hflag : (traceLoop (cam.GetRay x y) st.renderables
      (⟨floatMax, 0, 0⟩, false)).2 = true := by
    obtain ⟨h, hm⟩ := List.exists_mem_of_ne_nil _ hne
    exact traceLoop_flag _ _ _ ⟨h, hm, hmax h hm⟩
  rcases traceLoop_mem (cam.GetRay x y) st.renderables
      (⟨floatMax, 0, 0⟩, false) with heq | ⟨_, hmem⟩
  · rw [heq] at hflag
    exact absurd hflag (by simp)
  · refine ⟨_, hmem, ?_, ?_⟩
    · intro h2 hm2
      rcases traceLoop_min (cam.GetRay x y) st.renderables
          (⟨floatMax, 0, 0⟩, false) h2 hm2 with hle | hge
      · exact hle
      · exact absurd hge (not_le.mpr (hmax h2 hm2))
    · rw [samplePixel_def, if_pos hflag]

/-- Witness for C4: one renderable reporting a hit at distance 1 with
normal `(0,0,1)` and white material. -/
theorem samplePixel_closest_hit_witness :
    (reportedHits ((⟨fun _ _ => ⟨0, 0⟩⟩ : Camera).GetRay 0 0)
        (⟨[fun _ => some ⟨1, ⟨0, 0, 1⟩, ⟨1, 1, 1⟩⟩], 8, true, 8, 4, 4⟩ :
          RendererState).renderables ≠ [] ∧
      ∀ h ∈ reportedHits ((⟨fun _ _ => ⟨0, 0⟩⟩ : Camera).GetRay 0 0)
        (⟨[fun _ => some ⟨1, ⟨0, 0, 1⟩, ⟨1, 1, 1⟩⟩], 8, true, 8, 4, 4⟩ :
          RendererState).renderables, h.distance < floatMax) ∧
    ∃ h ∈ reportedHits ((⟨fun _ _ => ⟨0, 0⟩⟩ : Camera).GetRay 0 0)
        (⟨[fun _ => some ⟨1, ⟨0, 0, 1⟩, ⟨1, 1, 1⟩⟩], 8, true, 8, 4, 4⟩ :
          RendererState).renderables,
      (∀ h2 ∈ reportedHits ((⟨fun _ _ => ⟨0, 0⟩⟩ : Camera).GetRay 0 0)
        (⟨[fun _ => some ⟨1, ⟨0, 0, 1⟩, ⟨1, 1, 1⟩⟩], 8, true, 8, 4, 4⟩ :
          RendererState).renderables, h.distance ≤ h2.distance) ∧
      SamplePixel ⟨[fun _ => some ⟨1, ⟨0, 0, 1⟩, ⟨1, 1, 1⟩⟩], 8, true, 8, 4, 4⟩
        ⟨fun _ _ => ⟨0, 0⟩⟩ 0 0 = shadeHit h := by
  have hne : reportedHits ((⟨fun _ _ => ⟨0, 0⟩⟩ : Camera).GetRay 0 0)
      (⟨[fun _ => some ⟨1, ⟨0, 0, 1⟩, ⟨1, 1, 1⟩⟩], 8, true, 8, 4, 4⟩ :
        RendererState).renderables ≠ [] := by
    simp [reportedHits]
  have hmax : ∀ h ∈ reportedHits ((⟨fun _ _ => ⟨0, 0⟩⟩ : Camera).GetRay 0 0)
      (⟨[fun _ => some ⟨1, ⟨0, 0, 1⟩, ⟨1, 1, 1⟩⟩], 8, true, 8, 4, 4⟩ :
        RendererState).renderables, h.distance < floatMax := by
    intro h hm
    simp [reportedHits] at hm
    rw [hm]
    norm_num [floatMax]
  exact ⟨⟨hne, hmax⟩, samplePixel_closest_hit _ _ 0 0 hne hmax⟩

theorem tileBounds_decompose (W H T tid : ℕ) :
    tileBounds W H T tid =
      { minX := (tid % T) * W / T, minY := (tid / T) * H / T,
        maxX := (tid % T) * W / T + W / T,
        maxY := (tid / T) * H / T + H / T } := by
  have e : tid - tid / T * T = tid % T := by
    have h := Nat.div_add_mod tid T
    have h2 : T * (tid / T) = tid / T * T := Nat.mul_comm _ _
    omega
  simp [tileBounds, e]

theorem mul_div_cancel_mul (m T k : ℕ) (hT : 0 < T) : m * (T * k) / T = m * k := by
  rw [show m * (T * k) = m * k * T by ring]
  exact Nat.mul_div_cancel _ hT

theorem inTileBounds_divisible (T k l tid x y : ℕ) (hT : 0 < T) :
    inTileBounds (tileBounds (T * k) (T * l) T tid) x y ↔
      ((tid % T) * k ≤ x ∧ x < (tid % T) * k + k ∧
        (tid / T) * l ≤ y ∧ y < (tid / T) * l + l) := by
  rw [tileBounds_decompose]
  unfold inTileBounds
  rw [show T * k / T = k from Nat.mul_div_cancel_left k hT,
    show T * l / T = l from Nat.mul_div_cancel_left l hT,
    mul_div_cancel_mul (tid % T) T k hT, mul_div_cancel_mul (tid / T) T l hT]

theorem interval_index_unique (k a b x : ℕ) (ha1 : a * k ≤ x)
    (ha2 : x < a * k + k) (hb1 : b * k ≤ x) (hb2 : x < b * k + k) : a = b := by
  rcases lt_trichotomy a b with h | h | h
  · have h2 : (a + 1) * k ≤ b * k := Nat.mul_le_mul_right k (by omega)
    rw [Nat.succ_mul] at h2
    omega
  · exact h
  · have h2 : (b + 1) * k ≤ a * k := Nat.mul_le_mul_right k (by omega)
    rw [Nat.succ_mul] at h2
    omega

/-- Claim C3: when `tilesPerRow > 0` divides both image dimensions, the
tile bounds computed by `Render` over `tileID ∈ [0, tilesPerRow²)` are
pairwise disjoint half-open rectangles covering every pixel exactly once:
each pixel lies in the bounds of exactly one tile. -/
theorem tiles_partition (W H T : ℕ) (hT : 0 < T) (hW : T ∣ W) (hH : T ∣ H)
    (x y : ℕ) (hx : x < W) (hy : y < H) :
    ∃! tid, tid < T * T ∧ inTileBounds (tileBounds W H T tid) x y := by
  obtain ⟨k, rfl⟩ := hW
  obtain ⟨l, rfl⟩ := hH
  have hk : 0 < k := by
    rcases Nat.eq_zero_or_pos k with rfl | hk
    · omega
    · exact hk
  have hl : 0 < l := by
    rcases Nat.eq_zero_or_pos l with rfl | hl
    · omega
    · exact hl
  have htx : x / k < T := (Nat.div_lt_iff_lt_mul hk).mpr hx
  have hty : y / l < T := (Nat.div_lt_iff_lt_mul hl).mpr hy
  have hdiv : (x / k + T * (y / l)) / T = y / l := by
    rw [Nat.add_mul_div_left _ _ hT, Nat.div_eq_of_lt htx, Nat.zero_add]
  have hmod : (x / k + T * (y / l)) % T = x / k := by
    rw [Nat.add_mul_mod_self_left, Nat.mod_eq_of_lt htx]
  have hxdm : x / k * k + x % k = x := Nat.div_add_mod' x k
  have hydm : y / l * l + y % l = y := Nat.div_add_mod' y l
  have hxm : x % k < k := Nat.mod_lt x hk
  have hym : y % l < l := Nat.mod_lt y hl
  refine ⟨x / k + T * (y / l), ⟨?_, ?_⟩, ?_⟩
  · have h2 : T * (y / l + 1) ≤ T * T := Nat.mul_le_mul (le_refl T) (by omega)
    have h3 : T * (y / l + 1) = T * (y / l) + T := by ring
    omega
  · rw [inTileBounds_divisible T k l _ x y hT, hmod, hdiv]
    omega
  · intro tid2 htid2
    obtain ⟨hlt2, hin2⟩ := htid2
    rw [inTileBounds_divisible T k l _ x y hT] at hin2
    obtain ⟨hx1, hx2, hy1, hy2⟩ := hin2
    have ex : tid2 % T = x / k :=
      interval_index_unique k _ _ x hx1 hx2 (by omega) (by omega)
    have ey : tid2 / T = y / l :=
      interval_index_unique l _ _ y hy1 hy2 (by omega) (by omega)
    have hdm2 : T * (tid2 / T) + tid2 % T = tid2 := Nat.div_add_mod tid2 T
    rw [ex, ey] at hdm2
    omega

/-- Witness for C3: a 4×4 image with a 2×2 tile grid and pixel (3, 1). -/
theorem tiles_partition_witness :
    (0 < 2 ∧ 2 ∣ 4 ∧ 2 ∣ 4 ∧ 3 < 4 ∧ 1 < 4) ∧
      ∃! tid, tid < 2 * 2 ∧ inTileBounds (tileBounds 4 4 2 tid) 3 1 :=
  ⟨by decide, tiles_partition 4 4 2 (by decide) (by decide) (by decide) 3 1
    (by decide) (by decide)⟩

theorem setPix_apply (b : Buffer) (x y c : ℕ) (q : ℕ × ℕ) :
    setPix b x y c q = if q = (x, y) then c else b q := rfl

theorem RenderWorker_apply (st : RendererState) (cam : Camera)
    (b : RenderBounds) (buf : Buffer) (q : ℕ × ℕ) :
    RenderWorker st cam b buf q =
      if ∃ p ∈ tilePixels b, (p.2, p.1) = q
      then pixelCommit st cam q.2 q.1 else buf q := by
  unfold RenderWorker
  generalize tilePixels b = L
  induction L generalizing buf with
  | nil => simp
  | cons p L ih =>
      rw [List.foldl_cons, ih]
      by_cases hq : ∃ p2 ∈ L, (p2.2, p2.1) = q
      · rw [if_pos hq, if_pos ?_]
        obtain ⟨p2, hm, he⟩ := hq
        exact ⟨p2, List.mem_cons_of_mem p hm, he⟩
      · rw [if_neg hq, setPix_apply]
        by_cases he : q = (p.2, p.1)
        · rw [if_pos he, if_pos ⟨p, List.mem_cons_self p L, he.symm⟩]
          rw [he]
        · rw [if_neg he, if_neg ?_]
          rintro ⟨p2, hm, hqe⟩
          rcases List.mem_cons.mp hm with rfl | hm2
          · exact he hqe.symm
          · exact hq ⟨p2, hm2, hqe⟩

theorem renderTiles_apply (st : RendererState) (cam : Camera)
    (order : List ℕ) (buf : Buffer) (q : ℕ × ℕ) :
    (order.foldl
        (fun acc tid =>
          RenderWorker st cam (tileBounds st.sizeX st.sizeY st.tilesPerRow tid) acc)
        buf) q =
      if ∃ tid ∈ order,
          ∃ p ∈ tilePixels (tileBounds st.sizeX st.sizeY st.tilesPerRow tid),
            (p.2, p.1) = q
      then pixelCommit st cam q.2 q.1 else buf q := by
  induction order generalizing buf with
  | nil => simp
  | cons t order ih =>
      rw [List.foldl_cons, ih]
      by_cases hq : ∃ tid ∈ order,
          ∃ p ∈ tilePixels (tileBounds st.sizeX st.sizeY st.tilesPerRow tid),
            (p.2, p.1) = q
      · rw [if_pos hq, if_pos ?_]
        obtain ⟨tid, hm, hex⟩ := hq
        exact ⟨tid, List.mem_cons_of_mem t hm, hex⟩
      · rw [if_neg hq, RenderWorker_apply]
        by_cases he : ∃ p ∈ tilePixels (tileBounds st.sizeX st.sizeY st.tilesPerRow t),
            (p.2, p.1) = q
        · rw [if_pos he, if_pos ⟨t, List.mem_cons_self t order, he⟩]
        · rw [if_neg he, if_neg ?_]
          rintro ⟨tid, hm, hex⟩
          rcases List.mem_cons.mp hm with rfl | hm2
          · exact he hex
          · exact hq ⟨tid, hm2, hex⟩

theorem renderPass_apply (st : RendererState) (cam : Camera)
    (order : List ℕ) (q : ℕ × ℕ) :
    renderPass st cam order q =
      if ∃ tid ∈ order,
          ∃ p ∈ tilePixels (tileBounds st.sizeX st.sizeY st.tilesPerRow tid),
            (p.2, p.1) = q
      then pixelCommit st cam q.2 q.1 else 0xff000000 := by
  unfold renderPass
  exact renderTiles_apply st cam order _ q

/-- Claim C8: the render pass is a deterministic function of the scene,
camera and configuration: any two serializations of the parallel tile
dispatch (permutations of the canonical schedule) produce bit-identical
framebuffers, and `Render` is itself one such pass, so two successive
`Render` calls with unchanged inputs produce bit-identical framebuffers. -/
theorem render_deterministic (st : RendererState) (cam : Camera)
    (ord1 ord2 : List ℕ)
    (h1 : ord1.Perm (List.range (st.tilesPerRow * st.tilesPerRow)))
    (h2 : ord2.Perm (List.range (st.tilesPerRow * st.tilesPerRow))) :
    renderPass st cam ord1 = renderPass st cam ord2 ∧
      Render st cam = renderPass st cam ord1 := by
  have key : ∀ a b : List ℕ, a.Perm b →
      renderPass st cam a = renderPass st cam b := by
    intro a b hp
    funext q
    rw [renderPass_apply, renderPass_apply]
    have hiff : (∃ tid ∈ a,
        ∃ p ∈ tilePixels (tileBounds st.sizeX st.sizeY st.tilesPerRow tid),
          (p.2, p.1) = q) ↔
        (∃ tid ∈ b,
        ∃ p ∈ tilePixels (tileBounds st.sizeX st.sizeY st.tilesPerRow tid),
          (p.2, p.1) = q) := by
      constructor <;> rintro ⟨t, ht, hex⟩
      · exact ⟨t, hp.mem_iff.mp ht, hex⟩
      · exact ⟨t, hp.mem_iff.mpr ht, hex⟩
    rw [if_congr hiff rfl rfl]
  exact ⟨key ord1 ord2 (h1.trans h2.symm), key _ ord1 h1.symm⟩

/-- Witness for C8: a 1×1 image with one tile and the schedule `[0]`. -/
theorem render_deterministic_witness :
    (([0] : List ℕ).Perm (List.range (1 * 1)) ∧
        ([0] : List ℕ).Perm (List.range (1 * 1))) ∧
      (renderPass ⟨[], 8, true, 1, 1, 1⟩ ⟨fun _ _ => ⟨0, 0⟩⟩ [0] =
          renderPass ⟨[], 8, true, 1, 1, 1⟩ ⟨fun _ _ => ⟨0, 0⟩⟩ [0] ∧
        Render ⟨[], 8, true, 1, 1, 1⟩ ⟨fun _ _ => ⟨0, 0⟩⟩ =
          renderPass ⟨[], 8, true, 1, 1, 1⟩ ⟨fun _ _ => ⟨0, 0⟩⟩ [0]) := by
  have hperm : ([0] : List ℕ).Perm (List.range (1 * 1)) := by
    rw [show List.range (1 * 1) = [0] from rfl]
  exact ⟨⟨hperm, hperm⟩, render_deterministic _ _ [0] [0] hperm hperm⟩

theorem samplePixel_empty (st : RendererState) (cam : Camera) (y x : ℕ)
    (h : st.renderables = []) : SamplePixel st cam y x = 0 := by
  rw [samplePixel_def, h]
  simp [traceLoop]

theorem sampleSum_succ (arr : List Vector3) (n : ℕ) :
    sampleSum arr (n + 1) = sampleSum arr n + arr.getD n 0 := by
  unfold sampleSum
  rw [List.range_succ, List.foldl_append]
  rfl

theorem initialSamples_zero_getD (spp idx : ℕ) :
    (initialSamples 0 spp).getD idx 0 = 0 := by
  have hmem : ∀ v ∈ initialSamples 0 spp, v = 0 := by
    intro v hv
    unfold initialSamples clearedSamples at hv
    rcases List.mem_or_eq_of_mem_set hv with hv1 | rfl
    · rcases List.mem_or_eq_of_mem_set hv1 with hv2 | rfl
      · exact List.eq_of_mem_replicate hv2
      · rfl
    · rfl
  rcases lt_or_ge idx (initialSamples 0 spp).length with hlt | hge
  · rw [List.getD_eq_getElem _ _ hlt]
    exact hmem _ (List.getElem_mem hlt)
  · exact List.getD_eq_default _ _ hge

theorem sampleSum_initial_zero (spp n : ℕ) :
    sampleSum (initialSamples 0 spp) n = 0 := by
  induction n with
  | zero => rfl
  | succ n ih =>
      rw [sampleSum_succ, ih, initialSamples_zero_getD, Vector3.zero_add_vec]

theorem committedVector_zero (spp : ℕ) (bVar : Bool) (i : ℕ) :
    committedVector 0 spp bVar i = 0 := by
  unfold committedVector
  rw [pixelSampleState_eq]
  rw [show (initialSamples 0 spp, 2).1 = initialSamples 0 spp from rfl,
    show (initialSamples 0 spp, 2).2 = 2 from rfl, sampleSum_initial_zero]
  rw [Vector3.zero_def, Vector3.div_def]
  simp

theorem byteOfReal_zero : byteOfReal 0 = 0 := by
  unfold byteOfReal
  norm_num

theorem colorFromVectorHex_zero : colorFromVectorHex 0 = 0xff000000 := by
  unfold colorFromVectorHex
  rw [Vector3.zero_def]
  simp [byteOfReal_zero]

theorem pixelCommit_empty (spp : ℕ) (bVar : Bool) (T W H : ℕ) (cam : Camera)
    (i j : ℕ) : pixelCommit ⟨[], spp, bVar, T, W, H⟩ cam i j = 0xff000000 := by
  unfold pixelCommit
  rw [samplePixel_empty _ _ _ _ rfl, committedVector_zero, colorFromVectorHex_zero]

/-- Claim C7: with zero renderables registered, after `Render` every pixel
of the framebuffer equals the background fill color `0xff000000`: the
pre-fill writes it and every per-pixel commit reproduces it. -/
theorem render_empty_scene_background (spp : ℕ) (bVar : Bool) (T W H : ℕ)
    (cam : Camera) (q : ℕ × ℕ) :
    Render ⟨[], spp, bVar, T, W, H⟩ cam q = 0xff000000 := by
  unfold Render
  rw [renderPass_apply]
  split
  · exact pixelCommit_empty spp bVar T W H cam q.2 q.1
  · rfl

/-- Claim C10: evaluation of the code at the failing input.  The
accumulator always has `samplesPerPixel` entries, but the subscripts
applied to it while processing a pixel include the pixel row itself
(Renderer.cpp line 77): at the default `samplesPerPixel = 8`, for a pixel
in row 8 the accessed index 8 is not below the accumulator length 8. -/
theorem sampleAccess_out_of_bounds :
    (∀ S : Vector3, (initialSamples S 8).length = 8) ∧
      ¬ ∀ idx ∈ sampleAccessIndices 2 8, idx < 8 := by
  constructor
  · intro S
    simp [initialSamples, clearedSamples]
  · decide

end YAR

end
